import Mathlib

/-!
Verification of the Cloud Run service descriptor builder and merger
(`src/service.ts`).

The source manipulates dynamically-typed JSON-like trees (parsed YAML and
`run_v1.Schema$Service` objects).  We embed those values as the inductive
type `JVal` (strings, arrays, objects-as-association-lists) and translate
each operation of the source faithfully, including JavaScript truthiness
(`""` is falsy, `[]` is truthy), lodash `get`/`merge` semantics (lodash
`merge` merges arrays element-wise by index and mutates its first
argument), non-null-assertion property chains (reading a property of
`undefined` raises a `TypeError`), and the exact evaluation order of the
source.  Mutation is made explicit: `Service.merge` uses the previous
descriptor as the destination of the lodash merge, so our `mergeSvc`
returns the final state of the previous descriptor both on success and
(paired with the error) on failure.

Modelling notes (all harmless for the behaviours verified here):
numbers/booleans/null do not occur in the descriptors the code builds, so
`JVal` has no cases for them; `opts.yaml` is modelled as the pre-parsed
tree (file reading and YAML parsing are external collaborators);
JavaScript string lengths are UTF-16 code-unit counts while Lean counts
characters (the descriptors involved are ASCII); `parseInt` is modelled
exactly for its reachable inputs (hyphen-split segments, which can never
contain a minus sign) as an optional `+` followed by a longest digit
prefix, with `NaN` rendered as the string "NaN"; `Math.random()` is an
external source of randomness, so the random string is a parameter of
`generateRevisionName`.
-/

/-- A JSON-like value: the dynamic values `service.ts` manipulates. -/
inductive JVal where
  | str (s : String)
  | arr (xs : List JVal)
  | obj (fields : List (String × JVal))
deriving Repr

/-- Structural equality on `JVal`, with an explicit fuel argument so the
definition is structurally recursive.  This models JavaScript `===` as used
by `Array.prototype.includes` on the (string or `undefined`) entries of the
`keys` array in `Service.merge`. -/
def jeqvF : Nat → JVal → JVal → Bool
  | 0, _, _ => false
  | _ + 1, JVal.str a, JVal.str b => a == b
  | f + 1, JVal.arr a, JVal.arr b =>
      a.length == b.length && (a.zip b).all (fun p => jeqvF f p.1 p.2)
  | f + 1, JVal.obj a, JVal.obj b =>
      a.length == b.length && (a.zip b).all (fun p => p.1.1 == p.2.1 && jeqvF f p.1.2 p.2.2)
  | _ + 1, JVal.str _, JVal.arr _ => false
  | _ + 1, JVal.str _, JVal.obj _ => false
  | _ + 1, JVal.arr _, JVal.str _ => false
  | _ + 1, JVal.arr _, JVal.obj _ => false
  | _ + 1, JVal.obj _, JVal.str _ => false
  | _ + 1, JVal.obj _, JVal.arr _ => false

mutual

/-- Depth of a `JVal` tree (used as sufficient fuel for `jeqvF`). -/
def jdepth : JVal → Nat
  | JVal.str _ => 1
  | JVal.arr xs => 1 + jdepthL xs
  | JVal.obj fs => 1 + jdepthO fs

/-- Depth helper for array elements. -/
def jdepthL : List JVal → Nat
  | [] => 0
  | x :: xs => max (jdepth x) (jdepthL xs)

/-- Depth helper for object fields. -/
def jdepthO : List (String × JVal) → Nat
  | [] => 0
  | (_, v) :: fs => max (jdepth v) (jdepthO fs)

end

instance : BEq JVal := ⟨fun a b => jeqvF (jdepth a) a b⟩

/-- First binding of `key` in an association list (JavaScript object
property read; JS objects cannot have duplicate keys, lookups take the
first binding). -/
def lookupField : List (String × JVal) → String → Option JVal
  | [], _ => none
  | (k, v) :: rest, key => if k = key then some v else lookupField rest key

/-- Replace the value of an existing key, keeping the position. -/
def replaceField : List (String × JVal) → String → JVal → List (String × JVal)
  | [], _, _ => []
  | (k, v) :: rest, key, nv =>
    if k = key then (k, nv) :: rest else (k, v) :: replaceField rest key nv

/-- JavaScript property assignment `o[key] = v`: overwrite in place if the
key exists, otherwise append the new property. -/
def setField : List (String × JVal) → String → JVal → List (String × JVal)
  | [], key, nv => [(key, nv)]
  | (k, v) :: rest, key, nv =>
    if k = key then (k, nv) :: rest else (k, v) :: setField rest key nv

/-- One component of an access path: a property name or an array index. -/
inductive PC where
  | fld (s : String)
  | idx (n : Nat)
deriving DecidableEq, Repr

/-- One property access on a present (non-`undefined`) value.  Accessing a
property of a string primitive or a missing property yields `undefined`
(`none`); it never throws. -/
def jmem : JVal → PC → Option JVal
  | JVal.obj fs, PC.fld k => lookupField fs k
  | JVal.arr xs, PC.idx n => xs.get? n
  | _, _ => none

/-- lodash `get(value, path)`: total, returns `undefined` (`none`) as soon
as any step is missing. -/
def jget : JVal → List PC → Option JVal
  | v, [] => some v
  | v, p :: ps =>
    match jmem v p with
    | none => none
    | some w => jget w ps

/-- JavaScript truthiness of a value: every object and array is truthy
(including the empty array), the empty string is falsy. -/
def truthy : JVal → Bool
  | JVal.str s => !(s == "")
  | JVal.arr _ => true
  | JVal.obj _ => true

/-- Truthiness of a possibly-`undefined` value. -/
def truthyOpt : Option JVal → Bool
  | none => false
  | some v => truthy v

/-- Truthiness of an optional string input (`undefined` and `""` are
falsy). -/
def truthyS : Option String → Bool
  | none => false
  | some s => !(s == "")

/-- Property assignment on a present value.  Setting a property on a string
primitive is a silent no-op (non-strict mode). -/
def jset1 : JVal → PC → JVal → JVal
  | JVal.obj fs, PC.fld k, v => JVal.obj (setField fs k v)
  | JVal.arr xs, PC.idx n, v => JVal.arr (xs.set n v)
  | w, _, _ => w

/-- Nested assignment `root.p1.p2...pn = v` along a path whose prefix is
known to be navigable (the source guards these assignments with a lodash
`get`, or has just read through the same chain). -/
def jsetPath : JVal → List PC → JVal → JVal
  | r, [], _ => r
  | r, [p], v => jset1 r p v
  | r, p :: q :: ps, v =>
    match jmem r p with
    | some w => jset1 r p (jsetPath w (q :: ps) v)
    | none => r

/-- Error outcomes of the embedded code.  The source throws ordinary
`Error`/`TypeError` objects; the constructors record which `throw` site (or
implicit runtime `TypeError`) fired.  `missingInputs` and `badEnvToken`
are the caller-input errors ("Provide image and services names or a YAML
file." and the env-var format `TypeError`); `noContainer` ("No container
defined...") and `badRevisionName` (the 63-character revision-name
message) are validation errors; `typeError` is an implicit JavaScript
`TypeError` from accessing a property of `undefined` (or calling a string
method on a non-string). -/
inductive SvcError where
  | missingInputs
  | badEnvToken (tok : String)
  | noContainer
  | badRevisionName
  | typeError
deriving DecidableEq, Repr

/-- A chained property read `v.p1!.p2!....pn` with non-null assertions:
each intermediate access throws a `TypeError` when applied to `undefined`;
the final access may yield `undefined` without throwing. -/
def jreadBang : JVal → List PC → Except SvcError (Option JVal)
  | v, [] => Except.ok (some v)
  | v, [p] => Except.ok (jmem v p)
  | v, p :: q :: ps =>
    match jmem v p with
    | none => Except.error SvcError.typeError
    | some w => jreadBang w (q :: ps)

/-- lodash `String.prototype.split` with a single-character separator. -/
def splitCh (c : Char) : List Char → List (List Char)
  | [] => [[]]
  | x :: xs =>
    match splitCh c xs with
    | [] => [[x]]
    | y :: ys => if x = c then [] :: y :: ys else (x :: y) :: ys

/-- Longest digit prefix of a character list. -/
def leadDigits (cs : List Char) : List Char := cs.takeWhile (fun c => c.isDigit)

/-- Decimal value of a digit list. -/
def decNat (cs : List Char) : Nat := cs.foldl (fun n c => n * 10 + (c.toNat - '0'.toNat)) 0

/-- JavaScript `parseInt` restricted to its reachable inputs here (segments
of a hyphen-split string, which cannot contain a minus sign): an optional
leading `+`, then the longest digit prefix; `none` models `NaN`. -/
def jsParseNat (s : String) : Option Nat :=
  let cs := match s.data with
    | '+' :: rest => rest
    | cs => cs
  let ds := leadDigits cs
  if ds.isEmpty then none else some (decNat ds)

/-- Decimal rendering of a natural number (JavaScript
`Number.prototype.toString` for integers), fuel-structured. -/
def ndecAux : Nat → Nat → List Char → List Char
  | 0, _, acc => acc
  | f + 1, n, acc =>
    let d := Char.ofNat ('0'.toNat + n % 10)
    if n < 10 then d :: acc else ndecAux f (n / 10) (d :: acc)

/-- Decimal string of a natural number. -/
def ndec (n : Nat) : String := String.mk (ndecAux (n + 1) n [])

/-- JavaScript `String.prototype.padStart(w, c)`. -/
def jsPadStart (s : String) (w : Nat) (c : Char) : String :=
  if w ≤ s.length then s else String.mk (List.replicate (w - s.length) c) ++ s

/-- The letter extraction of `generateRevisionName`:
`rand.replace(/[^a-z]+/g, '').substring(0, 3)` applied to the string
produced by `Math.random().toString(36)` (the `rand` parameter). -/
def lettersOf (rand : String) : String :=
  String.mk ((rand.data.filter (fun c => c.isLower)).take 3)

mutual

/-- lodash `merge`: recursively merges source (second argument) into
destination (first argument).  Plain objects merge key by key; arrays
merge element-wise by index (lodash merges array properties recursively,
it does not replace them wholesale); any other source value overwrites the
destination.  In JavaScript the destination object is mutated in place and
returned; the callers of `lmerge` below account for that aliasing
explicitly. -/
def lmerge : JVal → JVal → JVal
  | JVal.obj d, JVal.obj s => JVal.obj (lmergeFields d s)
  | JVal.arr d, JVal.arr s => JVal.arr (lmergeElems d s)
  | _, s => s

def lmergeFields : List (String × JVal) → List (String × JVal) → List (String × JVal)
  | d, [] => d
  | d, (k, v) :: rest =>
    match lookupField d k with
    | some dv => lmergeFields (replaceField d k (lmerge dv v)) rest
    | none => lmergeFields (d ++ [(k, v)]) rest

def lmergeElems : List JVal → List JVal → List JVal
  | d, [] => d
  | [], s => s
  | x :: d, y :: s => lmerge x y :: lmergeElems d s

end

/-- Construction options of `Service` (`ServiceOptions` in the source);
`yaml` is the pre-parsed configuration tree. -/
structure ServiceOpts where
  image : Option String := none
  name : Option String := none
  envVars : Option String := none
  yaml : Option JVal := none

/-- The empty-shell request the constructor starts from when no YAML is
given. -/
def emptyShell : JVal :=
  JVal.obj [("apiVersion", JVal.str "serving.knative.dev/v1"),
            ("kind", JVal.str "Service"),
            ("metadata", JVal.obj []),
            ("spec", JVal.obj [])]

/-- One `KEY=VALUE` token of the env-var input (`parseEnvVars`'s `map`
body): requires an `=`, splits on every `=` and keeps the first two
segments. -/
def parseToken (t : String) : Except SvcError JVal :=
  if t.data.contains '=' then
    let kv := splitCh '=' t.data
    Except.ok (JVal.obj [("name", JVal.str (String.mk (kv.getD 0 []))),
                         ("value", JVal.str (String.mk (kv.getD 1 [])))])
  else Except.error (SvcError.badEnvToken t)

/-- Sequential parsing of the comma-split tokens (the `map` of
`parseEnvVars`, which throws at the first malformed token). -/
def parseTokens : List (List Char) → Except SvcError (List JVal)
  | [] => Except.ok []
  | t :: ts =>
    match parseToken (String.mk t) with
    | Except.error e => Except.error e
    | Except.ok v =>
      match parseTokens ts with
      | Except.error e => Except.error e
      | Except.ok vs => Except.ok (v :: vs)

/-- `parseEnvVars`: split the input on commas and parse each token,
throwing at the first malformed token. -/
def parseEnvVars (s : String) : Except SvcError (List JVal) :=
  parseTokens (splitCh ',' s.data)

/-- The env-var parsing step of the constructor (`if (opts?.envVars)`). -/
def parsedEnv (opts : ServiceOpts) : Except SvcError (Option (List JVal)) :=
  if truthyS opts.envVars then
    match parseEnvVars (opts.envVars.getD "") with
    | Except.ok l => Except.ok (some l)
    | Except.error e => Except.error e
  else Except.ok none

/-- Path `spec.template.spec`. -/
def specPath : List PC := [PC.fld "spec", PC.fld "template", PC.fld "spec"]

/-- Path `spec.template.spec.containers`. -/
def contPath : List PC := [PC.fld "spec", PC.fld "template", PC.fld "spec", PC.fld "containers"]

/-- Path `spec.template.metadata.name` (the revision name). -/
def revPath : List PC := [PC.fld "spec", PC.fld "template", PC.fld "metadata", PC.fld "name"]

/-- The starting request: the parsed YAML tree if one was given, else the
empty shell. -/
def initialRequest (opts : ServiceOpts) : JVal :=
  match opts.yaml with
  | some t => t
  | none => emptyShell

/-- Constructor step "If name is provided, set or override". -/
def applyNameOpt (opts : ServiceOpts) (request : JVal) : JVal :=
  if truthyS opts.name then
    let nm := JVal.str (opts.name.getD "")
    match jmem request (PC.fld "metadata") with
    | some m =>
      if truthy m then jset1 request (PC.fld "metadata") (jset1 m (PC.fld "name") nm)
      else jset1 request (PC.fld "metadata") (JVal.obj [("name", nm)])
    | none => jset1 request (PC.fld "metadata") (JVal.obj [("name", nm)])
  else request

/-- Constructor step "If image is provided, set or override YAML": when
`spec.template.spec` already exists (lodash `get` is truthy) the container
list is replaced with the single new container, otherwise the whole `spec`
field is replaced by the nested single-container skeleton. -/
def applyImageOpt (opts : ServiceOpts) (request : JVal) : JVal :=
  if truthyS opts.image then
    let container := JVal.obj [("image", JVal.str (opts.image.getD ""))]
    if truthyOpt (jget request specPath) then
      jsetPath request contPath (JVal.arr [container])
    else
      jset1 request (PC.fld "spec")
        (JVal.obj [("template", JVal.obj [("spec",
          JVal.obj [("containers", JVal.arr [container])])])])
  else request

/-- Constructor step "If Env Vars are provided, set or override YAML". -/
def applyEnvOpt (envs : Option (List JVal)) (request : JVal) : JVal :=
  match envs with
  | some l =>
    if truthyOpt (jget request (contPath ++ [PC.idx 0])) then
      jsetPath request (contPath ++ [PC.idx 0, PC.fld "env"]) (JVal.arr l)
    else request
  | none => request

/-- The constructed service: the request tree and `this.name`
(`request.metadata!.name!`, which may be `undefined`). -/
structure Service where
  request : JVal
  name : Option JVal

/-- The `Service` constructor.  Faithful to the source order: the
missing-inputs check, env-var parsing, YAML/shell selection, name
override, image override, the container presence check
(`!get(request, 'spec.template.spec.containers')`, so an *empty* container
array — being truthy — passes), the env override, and finally the read of
`request.metadata!.name!` (a `TypeError` when `metadata` is absent). -/
def build (opts : ServiceOpts) : Except SvcError Service :=
  if (!truthyS opts.name || !truthyS opts.image) && opts.yaml.isNone then
    Except.error SvcError.missingInputs
  else
    match parsedEnv opts with
    | Except.error e => Except.error e
    | Except.ok envs =>
      let r2 := applyImageOpt opts (applyNameOpt opts (initialRequest opts))
      if !truthyOpt (jget r2 contPath) then Except.error SvcError.noContainer
      else
        let r3 := applyEnvOpt envs r2
        match jmem r3 (PC.fld "metadata") with
        | none => Except.error SvcError.typeError
        | some m => Except.ok { request := r3, name := jmem m (PC.fld "name") }

/-- The numeric-suffix computation of `generateRevisionName`:
`(parseInt(suffix[suffix.length - 2]) + 1).toString()` when a previous
name is (truthily) present, else `"1"`.  A previous name that is truthy
but not a string has no `.split`, a `TypeError`.  An out-of-range index or
unparseable segment gives `NaN`, rendered as "NaN". -/
def numSuffix (prevName : Option JVal) : Except SvcError String :=
  if truthyOpt prevName then
    match prevName with
    | some (JVal.str p) =>
      let suffix := splitCh '-' p.data
      let seg : Option (List Char) :=
        if 2 ≤ suffix.length then suffix.get? (suffix.length - 2) else none
      match seg with
      | some cs =>
        match jsParseNat (String.mk cs) with
        | some n => Except.ok (ndec (n + 1))
        | none => Except.ok "NaN"
      | none => Except.ok "NaN"
    | _ => Except.error SvcError.typeError
  else Except.ok "1"

/-- The length test `name.length > 63`: length of a string (or of an
array, JavaScript arrays also have `.length`); `undefined > 63` is false
for any other value. -/
def nameLenGt63 : Option JVal → Bool
  | some (JVal.str s) => 63 < s.length
  | some (JVal.arr xs) => 63 < xs.length
  | _ => false

/-- `Service.generateRevisionName(name, prevName)`.  `svcName` is
`this.name`; `rand` is the string `Math.random().toString(36)`.  A truthy
`name` longer than 63 characters throws the revision-name `Error`
(`badRevisionName`); a truthy short `name` is returned unchanged; a falsy
`name` triggers auto-generation
`this.name.substring(0, 53) + '-' + num.padStart(4, '0') + '-' + letters`
(a `TypeError` when `this.name` is not a string). -/
def generateRevisionName (svcName name prevName : Option JVal) (rand : String) :
    Except SvcError JVal :=
  if truthyOpt name && nameLenGt63 name then Except.error SvcError.badRevisionName
  else if !truthyOpt name then
    match numSuffix prevName with
    | Except.error e => Except.error e
    | Except.ok num =>
      let letters := lettersOf rand
      match svcName with
      | some (JVal.str sn) =>
        Except.ok (JVal.str (String.mk (sn.data.take 53) ++ "-" ++
          jsPadStart num 4 '0' ++ "-" ++ letters))
      | _ => Except.error SvcError.typeError
  else
    match name with
    | some v => Except.ok v
    | none => Except.error SvcError.typeError

/-- The current-env step of `Service.merge`: `let env = []` then
`if (currentEnvVars) env = currentEnvVars.map(...)` — a truthy non-array
has no `.map` (`TypeError`). -/
def envListOfCurrent : Option JVal → Except SvcError (List JVal)
  | none => Except.ok []
  | some v =>
    if truthy v then
      match v with
      | JVal.arr xs => Except.ok xs
      | _ => Except.error SvcError.typeError
    else Except.ok []

/-- The `prevEnvVars?.forEach` step of `Service.merge`: append each
previous env var whose `name` is not among `keys` (the current names,
compared with `===`); `?.` only guards `undefined`, so a present non-array
value has no `.forEach` (`TypeError`). -/
def prevEnvFold (env0 : List JVal) (keys : List (Option JVal)) :
    Option JVal → Except SvcError (List JVal)
  | none => Except.ok env0
  | some (JVal.arr ys) =>
    Except.ok (env0 ++ ys.filter (fun y => !(keys.contains (jmem y (PC.fld "name")))))
  | some _ => Except.error SvcError.typeError

/-- `Service.merge(prevService)`.  lodash `merge(prevService, this.request)`
mutates `prevService` in place and returns it, so from line 144 on
`mergedServices` and `prevService` are the same object; in particular the
`prevEnvVars` read on line 153 sees the already-merged env list.  The
result carries the final state of `this` and of `prevService` (identical
trees); an error carries the state `prevService` has been left in.
Evaluation order is the source's: the assignment target
`mergedServices.spec!.template!.metadata!` is resolved before
`generateRevisionName` runs (property access on `undefined` throws
immediately; a defined chain with an `undefined` `metadata` throws only at
the actual write, after the right-hand side ran). -/
def mergeSvc (svc : Service) (prev : JVal) (rand : String) :
    Except (SvcError × JVal) (Service × JVal) :=
  let name := jget svc.request revPath
  let previousName := jget prev revPath
  let merged := lmerge prev svc.request
  match jreadBang merged [PC.fld "spec", PC.fld "template", PC.fld "metadata"] with
  | Except.error e => Except.error (e, merged)
  | Except.ok metaBase =>
    match generateRevisionName svc.name name previousName rand with
    | Except.error e => Except.error (e, merged)
    | Except.ok revName =>
      match metaBase with
      | none => Except.error (SvcError.typeError, merged)
      | some _ =>
        let merged1 := jsetPath merged revPath revName
        match jreadBang merged1 (contPath ++ [PC.idx 0, PC.fld "env"]) with
        | Except.error e => Except.error (e, merged1)
        | Except.ok prevEnvVars =>
          match jreadBang svc.request (contPath ++ [PC.idx 0, PC.fld "env"]) with
          | Except.error e => Except.error (e, merged1)
          | Except.ok currentEnvVars =>
            match envListOfCurrent currentEnvVars with
            | Except.error e => Except.error (e, merged1)
            | Except.ok env0 =>
              let keys := env0.map (fun envVar => jmem envVar (PC.fld "name"))
              match prevEnvFold env0 keys prevEnvVars with
              | Except.error e => Except.error (e, merged1)
              | Except.ok envF =>
                match jreadBang merged1 (contPath ++ [PC.idx 0]) with
                | Except.error e => Except.error (e, merged1)
                | Except.ok base2 =>
                  match base2 with
                  | none => Except.error (SvcError.typeError, merged1)
                  | some _ =>
                    let merged2 :=
                      jsetPath merged1 (contPath ++ [PC.idx 0, PC.fld "env"]) (JVal.arr envF)
                    Except.ok ({ request := merged2, name := svc.name }, merged2)


/-- An env-var entry `{name, value}` as a tree value. -/
def envPairT (p : String × String) : JVal :=
  JVal.obj [("name", JVal.str p.1), ("value", JVal.str p.2)]

/-- A previously deployed descriptor with revision name `svc-0005-abc` and
one env var `OLD=x`. -/
def prevT : JVal :=
  JVal.obj [("spec", JVal.obj [("template", JVal.obj [
    ("metadata", JVal.obj [("name", JVal.str "svc-0005-abc")]),
    ("spec", JVal.obj [("containers", JVal.arr [JVal.obj [
      ("image", JVal.str "old"),
      ("env", JVal.arr [envPairT ("OLD", "x")])]])])])])]

/-- A freshly built descriptor with one env var `NEW=y`. -/
def curT : JVal :=
  JVal.obj [("spec", JVal.obj [("template", JVal.obj [
    ("spec", JVal.obj [("containers", JVal.arr [JVal.obj [
      ("image", JVal.str "new"),
      ("env", JVal.arr [envPairT ("NEW", "y")])]])])])])]

/-- The result state of merging `curT` into `prevT` with random string
`"0.defgh"` (letters `def`). -/
def mergedT : JVal :=
  JVal.obj [("spec", JVal.obj [("template", JVal.obj [
    ("metadata", JVal.obj [("name", JVal.str "svc-0006-def")]),
    ("spec", JVal.obj [("containers", JVal.arr [JVal.obj [
      ("image", JVal.str "new"),
      ("env", JVal.arr [envPairT ("NEW", "y")])]])])])])]

/-- A 64-character revision name (too long). -/
def longName64 : String := String.mk (List.replicate 64 'a')

/-- A current descriptor carrying an explicit 64-character revision name
at `spec.template.metadata.name`. -/
def curLongRevT : JVal :=
  JVal.obj [("spec", JVal.obj [("template", JVal.obj [
    ("metadata", JVal.obj [("name", JVal.str longName64)]),
    ("spec", JVal.obj [("containers", JVal.arr [JVal.obj [
      ("image", JVal.str "new")]])])])])]

/-- A previous descriptor with an unrelated top-level field `foo`. -/
def prevSmallT : JVal :=
  JVal.obj [("foo", JVal.str "bar"),
    ("spec", JVal.obj [("template", JVal.obj [
      ("metadata", JVal.obj [("name", JVal.str "svc-0005-abc")]),
      ("spec", JVal.obj [("containers", JVal.arr [JVal.obj [
        ("image", JVal.str "old")]])])])])]

/-- The state `prevSmallT` is left in after `merge` fails on the 64-character
revision name: the deep merge has already overwritten it. -/
def mergedLongT : JVal :=
  JVal.obj [("foo", JVal.str "bar"),
    ("spec", JVal.obj [("template", JVal.obj [
      ("metadata", JVal.obj [("name", JVal.str longName64)]),
      ("spec", JVal.obj [("containers", JVal.arr [JVal.obj [
        ("image", JVal.str "new")]])])])])]

/-- A configuration tree whose container list is explicitly empty. -/
def yamlEmptyContainers : JVal :=
  JVal.obj [("metadata", JVal.obj [("name", JVal.str "x")]),
    ("spec", JVal.obj [("template", JVal.obj [("spec",
      JVal.obj [("containers", JVal.arr [])])])])]

/-- A 53-character service name. -/
def aaa53 : String := String.mk (List.replicate 53 'a')

/-- Canonical previous descriptor with revision name `svc-0001-abc` and the
given env list. -/
def canonPrev (env : List (String × String)) : JVal :=
  JVal.obj [("spec", JVal.obj [("template", JVal.obj [
    ("metadata", JVal.obj [("name", JVal.str "svc-0001-abc")]),
    ("spec", JVal.obj [("containers", JVal.arr [JVal.obj [
      ("image", JVal.str "old"), ("env", JVal.arr (env.map envPairT))]])])])])]

/-- Canonical current descriptor (no explicit revision name) with the given
env list. -/
def canonCur (env : List (String × String)) : JVal :=
  JVal.obj [("spec", JVal.obj [("template", JVal.obj [
    ("spec", JVal.obj [("containers", JVal.arr [JVal.obj [
      ("image", JVal.str "new"), ("env", JVal.arr (env.map envPairT))]])])])])]

/-- Canonical current service (name `svc`). -/
def canonSvc (env : List (String × String)) : Service :=
  Service.mk (canonCur env) (some (JVal.str "svc"))

/-- The env list `Service.merge` produces for the canonical descriptors:
the current entries followed by those entries of the *already deep-merged*
previous env list whose name is not among the current names. -/
def mergedEnvList (cur prev : List (String × String)) : List JVal :=
  cur.map envPairT ++
    (lmergeElems (prev.map envPairT) (cur.map envPairT)).filter
      (fun y => !(((cur.map envPairT).map
        (fun envVar => jmem envVar (PC.fld "name"))).contains (jmem y (PC.fld "name"))))

/-- The merged canonical descriptor. -/
def canonMerged (cur prev : List (String × String)) (rand : String) : JVal :=
  JVal.obj [("spec", JVal.obj [("template", JVal.obj [
    ("metadata", JVal.obj [("name",
      JVal.str (String.mk ("svc".data.take 53) ++ "-" ++ jsPadStart (ndec 2) 4 '0' ++ "-" ++
        lettersOf rand))]),
    ("spec", JVal.obj [("containers", JVal.arr [JVal.obj [
      ("image", JVal.str "new"),
      ("env", JVal.arr (mergedEnvList cur prev))]])])])])]

/-- The input-error condition exactly as the specification states it: the
construction inputs are insufficient (neither a truthy `name` and a truthy
`image` together, nor a configuration tree) or some comma-delimited token
of a supplied (truthy) `envVars` string lacks an `=` separator. -/
def inputErrorCond (opts : ServiceOpts) : Bool :=
  ((!truthyS opts.name || !truthyS opts.image) && opts.yaml.isNone) ||
  (truthyS opts.envVars &&
    ((splitCh ',' ((opts.envVars.getD "").data)).any (fun t => !(t.contains '='))))

/-- Whether a build outcome is one of the caller-input errors
(`InputError` in the specification's taxonomy). -/
def isInputErr : Except SvcError Service → Bool
  | Except.error SvcError.missingInputs => true
  | Except.error (SvcError.badEnvToken _) => true
  | _ => false

/-! ## Helper lemmas -/

theorem jreadBang_error_eq (v : JVal) (path : List PC) (e : SvcError)
    (h : jreadBang v path = Except.error e) : e = SvcError.typeError := by
  induction path generalizing v with
  | nil => simp [jreadBang] at h
  | cons p ps ih =>
    cases ps with
    | nil => simp [jreadBang] at h
    | cons q qs =>
      rw [jreadBang] at h
      cases hm : jmem v p with
      | none => rw [hm] at h; exact (Except.error.injEq _ _).mp h |>.symm
      | some w => rw [hm] at h; exact ih w h

theorem envListOfCurrent_error_eq (v : Option JVal) (e : SvcError)
    (h : envListOfCurrent v = Except.error e) : e = SvcError.typeError := by
  cases v with
  | none => simp [envListOfCurrent] at h
  | some w =>
    cases w with
    | str s =>
      by_cases hs : s = "" <;> simp [envListOfCurrent, truthy, hs] at h
      exact h.symm
    | arr xs => simp [envListOfCurrent, truthy] at h
    | obj fs => simp [envListOfCurrent, truthy] at h; exact h.symm

theorem prevEnvFold_error_eq (env0 : List JVal) (keys : List (Option JVal)) (v : Option JVal)
    (e : SvcError) (h : prevEnvFold env0 keys v = Except.error e) : e = SvcError.typeError := by
  cases v with
  | none => simp [prevEnvFold] at h
  | some w => cases w <;> simp [prevEnvFold] at h <;> exact h.symm

/-! ## Claim theorems -/

/-- C2: the specification claims that merging a previous descriptor with
first-container env `[OLD=x]` into a current descriptor with env `[NEW=y]`
yields the env list `[NEW=y, OLD=x]` (old names not overridden by name
survive).  The code instead yields `[NEW=y]`: lodash `merge` has already
mutated `prevService` in place (element-wise, so the entry `OLD=x` was
overwritten by `NEW=y`) before `prevEnvVars` is read on line 153, so the
`OLD` variable is silently dropped.  This contradicts the code's own
comment "Add old env vars without duplicating"; the claim describes the
intent, the code is the slip. -/
theorem merge_env_drops_old_var :
    mergeSvc (Service.mk curT (some (JVal.str "svc"))) prevT "0.defgh" =
      Except.ok (Service.mk mergedT (some (JVal.str "svc")), mergedT) ∧
    jget mergedT (contPath ++ [PC.idx 0, PC.fld "env"]) =
      some (JVal.arr [envPairT ("NEW", "y")]) ∧
    JVal.arr [envPairT ("NEW", "y")] ≠
      JVal.arr [envPairT ("NEW", "y"), envPairT ("OLD", "x")] := by
  exact ⟨rfl, rfl, by simp [envPairT]⟩

/-- C5 counterexample: a configuration tree whose `containers` list is
explicitly empty (and no image input) is *not* rejected by the builder:
an empty array is truthy in JavaScript, so
`!get(request, 'spec.template.spec.containers')` is false and the
constructor succeeds. -/
theorem build_empty_containers_ok_cx :
    build { yaml := some yamlEmptyContainers } =
      Except.ok (Service.mk yamlEmptyContainers (some (JVal.str "x"))) ∧
    jget yamlEmptyContainers contPath = some (JVal.arr []) := ⟨rfl, rfl⟩

/-- C7: with a truthy (nonempty) explicit revision name — the code treats a
falsy name as absent — `generateRevisionName` throws the revision-name
`ValidationError` if and only if the name is longer than 63 characters,
and returns any name of length at most 63 unchanged, with no other
validation. -/
theorem revision_name_explicit_spec (svcName prevName : Option JVal) (rand : String)
    (s : String) (hs : s ≠ "") :
    (63 < s.length →
      generateRevisionName svcName (some (JVal.str s)) prevName rand =
        Except.error SvcError.badRevisionName) ∧
    (s.length ≤ 63 →
      generateRevisionName svcName (some (JVal.str s)) prevName rand =
        Except.ok (JVal.str s)) := by
  have h1 : (s == "") = false := beq_eq_false_iff_ne.mpr hs
  constructor
  · intro h
    simp [generateRevisionName, truthyOpt, truthy, nameLenGt63, h1, h]
  · intro h
    simp [generateRevisionName, truthyOpt, truthy, nameLenGt63, h1, Nat.not_lt.mpr h]

/-- C7 witness: the explicit name `rev` (length 3) is returned unchanged. -/
theorem revision_name_explicit_spec_witness :
    generateRevisionName none (some (JVal.str "rev")) none "" = Except.ok (JVal.str "rev") :=
  (revision_name_explicit_spec none none "" "rev" (by decide)).2 (by decide)

/-- C9: for all truthy (nonempty) `image` and `name` inputs, `build`
succeeds and produces a descriptor whose first container image is `image`
and whose `metadata.name` is `name`. -/
theorem build_sets_image_and_name (nm img : String) (hn : nm ≠ "") (hi : img ≠ "") :
    ∃ svc : Service,
      build { name := some nm, image := some img } = Except.ok svc ∧
      jget svc.request (contPath ++ [PC.idx 0, PC.fld "image"]) = some (JVal.str img) ∧
      jget svc.request [PC.fld "metadata", PC.fld "name"] = some (JVal.str nm) := by
  have h1 : (nm == "") = false := beq_eq_false_iff_ne.mpr hn
  have h2 : (img == "") = false := beq_eq_false_iff_ne.mpr hi
  refine ⟨Service.mk
    (JVal.obj [("apiVersion", JVal.str "serving.knative.dev/v1"),
      ("kind", JVal.str "Service"),
      ("metadata", JVal.obj [("name", JVal.str nm)]),
      ("spec", JVal.obj [("template", JVal.obj [("spec",
        JVal.obj [("containers", JVal.arr [JVal.obj [("image", JVal.str img)]])])])])])
    (some (JVal.str nm)), ?_, by rfl, by rfl⟩
  simp [build, truthyS, h1, h2, parsedEnv, initialRequest, applyNameOpt, applyImageOpt,
    applyEnvOpt, emptyShell, jmem, jget, jset1, setField, lookupField, truthy, truthyOpt,
    jsetPath, specPath, contPath]

/-- C9 witness: a concrete build with name `svc` and image `img`. -/
theorem build_sets_image_and_name_witness :
    ∃ svc : Service,
      build { name := some "svc", image := some "img" } = Except.ok svc ∧
      jget svc.request (contPath ++ [PC.idx 0, PC.fld "image"]) = some (JVal.str "img") ∧
      jget svc.request [PC.fld "metadata", PC.fld "name"] = some (JVal.str "svc") :=
  build_sets_image_and_name "svc" "img" (by decide) (by decide)

theorem parseToken_error_shape (t : String) (e : SvcError)
    (h : parseToken t = Except.error e) : e = SvcError.badEnvToken t := by
  unfold parseToken at h
  by_cases hc : t.data.contains '=' = true
  · rw [if_pos hc] at h
    exact absurd h (by simp)
  · rw [if_neg hc] at h
    exact ((Except.error.injEq _ _).mp h).symm

theorem parseTokens_error_shape (ts : List (List Char)) (e : SvcError) :
    parseTokens ts = Except.error e → ∃ t, e = SvcError.badEnvToken t := by
  induction ts with
  | nil => intro h; simp [parseTokens] at h
  | cons t ts ih =>
    intro h
    rw [parseTokens] at h
    cases hp : parseToken (String.mk t) with
    | error e2 =>
      rw [hp] at h
      obtain rfl : e2 = e := (Except.error.injEq _ _).mp h
      exact ⟨String.mk t, parseToken_error_shape _ _ hp⟩
    | ok v =>
      rw [hp] at h
      cases hq : parseTokens ts with
      | error e3 =>
        rw [hq] at h
        obtain rfl : e3 = e := (Except.error.injEq _ _).mp h
        exact ih hq
      | ok vs =>
        rw [hq] at h
        exact absurd h (by simp)

theorem parseTokens_ok_of_all (ts : List (List Char))
    (h : ∀ t ∈ ts, t.contains '=' = true) : ∃ l, parseTokens ts = Except.ok l := by
  induction ts with
  | nil => exact ⟨[], rfl⟩
  | cons t ts ih =>
    have h1 : (String.mk t).data.contains '=' = true := h t (by simp)
    obtain ⟨l, hl⟩ := ih (fun u hu => h u (by simp [hu]))
    cases hq : parseToken (String.mk t) with
    | error e2 =>
      rw [parseToken, if_pos h1] at hq
      exact absurd hq (by simp)
    | ok v =>
      exact ⟨v :: l, by rw [parseTokens, hq, hl]⟩

theorem parseTokens_error_of_any (ts : List (List Char))
    (h : ∃ t ∈ ts, t.contains '=' = false) :
    ∃ t, parseTokens ts = Except.error (SvcError.badEnvToken t) := by
  induction ts with
  | nil => simp at h
  | cons t ts ih =>
    by_cases h1 : (String.mk t).data.contains '=' = true
    · obtain ⟨u, hu, hbad⟩ := h
      rcases List.mem_cons.mp hu with rfl | hmem
      · have h1x : u.contains '=' = true := h1
        rw [hbad] at h1x
        exact absurd h1x (by simp)
      · obtain ⟨w, hw⟩ := ih ⟨u, hmem, hbad⟩
        cases hq : parseToken (String.mk t) with
        | error e2 =>
          rw [parseToken, if_pos h1] at hq
          exact absurd hq (by simp)
        | ok v =>
          exact ⟨w, by rw [parseTokens, hq, hw]⟩
    · refine ⟨String.mk t, ?_⟩
      rw [parseTokens, parseToken, if_neg h1]

theorem parsedEnv_error_shape (opts : ServiceOpts) (e : SvcError)
    (h : parsedEnv opts = Except.error e) : ∃ t, e = SvcError.badEnvToken t := by
  unfold parsedEnv at h
  by_cases he : truthyS opts.envVars = true
  · rw [if_pos he] at h
    cases hq : parseEnvVars (opts.envVars.getD "") with
    | error e2 =>
      rw [hq] at h
      simp at h
      subst h
      exact parseTokens_error_shape _ _ hq
    | ok l => rw [hq] at h; simp at h
  · rw [if_neg he] at h; simp at h

/-- C5 (amended): the builder fails with the no-container `ValidationError`
exactly when the inputs pass the missing-inputs check, env-var parsing
succeeds, and after applying config, name and image the lodash `get` of
`spec.template.spec.containers` is still falsy (in particular absent) —
but *not* when the container list is present and empty: an empty array is
truthy in JavaScript, so it passes the check. -/
theorem build_noContainer_iff (opts : ServiceOpts) :
    build opts = Except.error SvcError.noContainer ↔
      (((!truthyS opts.name || !truthyS opts.image) && opts.yaml.isNone) = false ∧
       (∃ envs, parsedEnv opts = Except.ok envs) ∧
       truthyOpt (jget (applyImageOpt opts (applyNameOpt opts (initialRequest opts))) contPath)
         = false) := by
  unfold build
  by_cases h1 : ((!truthyS opts.name || !truthyS opts.image) && opts.yaml.isNone) = true
  · simp [h1]
  · rw [Bool.not_eq_true] at h1
    cases hp : parsedEnv opts with
    | error e =>
      obtain ⟨t, rfl⟩ := parsedEnv_error_shape opts e hp
      simp [h1, hp]
    | ok envs =>
      by_cases h2 : truthyOpt (jget (applyImageOpt opts (applyNameOpt opts (initialRequest opts)))
          contPath) = true
      · simp only [h1, Bool.false_eq_true, if_false, hp, h2, Bool.not_true]
        cases hm : jmem (applyEnvOpt envs (applyImageOpt opts (applyNameOpt opts
            (initialRequest opts)))) (PC.fld "metadata") <;> simp [hm, h2]
      · rw [Bool.not_eq_true] at h2
        simp [h1, hp, h2]

theorem char_contains_true_iff (u : List Char) (c : Char) : u.contains c = true ↔ c ∈ u :=
  List.elem_iff

/-- C8: the builder raises a caller-input error (`InputError` in the
specification's taxonomy: the missing-inputs `Error` or the env-var-format
`TypeError`) exactly when neither (a truthy `name` together with a truthy
`image`) nor a config tree is supplied, or a supplied (truthy) `envVars`
string has some comma-delimited token without an `=` separator. -/
theorem build_input_error_iff (opts : ServiceOpts) :
    isInputErr (build opts) = inputErrorCond opts := by
  unfold build inputErrorCond
  by_cases h1 : ((!truthyS opts.name || !truthyS opts.image) && opts.yaml.isNone) = true
  · simp [h1, isInputErr]
  · rw [Bool.not_eq_true] at h1
    by_cases he : truthyS opts.envVars = true
    · by_cases hb : ((splitCh ',' ((opts.envVars.getD "").data)).any
          fun t => !(t.contains '=')) = true
      · obtain ⟨u, hu, hbu⟩ := List.any_eq_true.mp hb
        have hbu2 : u.contains '=' = false := by
          cases hcv : u.contains '=' with
          | false => rfl
          | true => rw [hcv] at hbu; exact absurd hbu (by simp)
        obtain ⟨t, ht⟩ : ∃ t, parseEnvVars (opts.envVars.getD "") =
            Except.error (SvcError.badEnvToken t) := by
          unfold parseEnvVars
          exact parseTokens_error_of_any _ ⟨u, hu, hbu2⟩
        have hp : parsedEnv opts = Except.error (SvcError.badEnvToken t) := by
          unfold parsedEnv; rw [if_pos he, ht]
        simp [h1, hp, isInputErr, he, hb]
        exact ⟨u, hu, fun hmem =>
          Bool.noConfusion (((char_contains_true_iff u '=').mpr hmem).symm.trans hbu2)⟩
      · rw [Bool.not_eq_true] at hb
        have hall : ∀ u ∈ splitCh ',' ((opts.envVars.getD "").data),
            u.contains '=' = true := by
          intro u hu
          cases hcv : u.contains '=' with
          | true => rfl
          | false =>
            have hx : ((splitCh ',' ((opts.envVars.getD "").data)).any
                fun t => !(t.contains '=')) = true :=
              List.any_eq_true.mpr ⟨u, hu, by rw [hcv]; rfl⟩
            rw [hb] at hx
            exact absurd hx (by simp)
        have hmemall : ∀ x ∈ splitCh ',' ((opts.envVars.getD "").data), '=' ∈ x :=
          fun x hx => (char_contains_true_iff x '=').mp (hall x hx)
        obtain ⟨l, hl⟩ := parseTokens_ok_of_all _ hall
        have hp : parsedEnv opts = Except.ok (some l) := by
          unfold parsedEnv
          rw [if_pos he]
          unfold parseEnvVars
          rw [hl]
        by_cases h2 : truthyOpt (jget (applyImageOpt opts (applyNameOpt opts
            (initialRequest opts))) contPath) = true
        · simp only [h1, Bool.false_eq_true, if_false, hp, h2, Bool.not_true]
          cases hm : jmem (applyEnvOpt (some l) (applyImageOpt opts (applyNameOpt opts
              (initialRequest opts)))) (PC.fld "metadata") <;>
            simp [hm, isInputErr, he, hb, h1] <;> exact hmemall
        · rw [Bool.not_eq_true] at h2
          simp [h1, hp, h2, isInputErr, he, hb]
          exact hmemall
    · rw [Bool.not_eq_true] at he
      have hp : parsedEnv opts = Except.ok none := by
        unfold parsedEnv; rw [if_neg (by simp [he])]
      by_cases h2 : truthyOpt (jget (applyImageOpt opts (applyNameOpt opts
          (initialRequest opts))) contPath) = true
      · simp only [h1, Bool.false_eq_true, if_false, hp, h2, Bool.not_true]
        cases hm : jmem (applyEnvOpt none (applyImageOpt opts (applyNameOpt opts
            (initialRequest opts)))) (PC.fld "metadata") <;>
          simp [hm, isInputErr, he, h1]
      · rw [Bool.not_eq_true] at h2
        simp [h1, hp, h2, isInputErr, he]

theorem splitCh_ne_nil (c : Char) (cs : List Char) : splitCh c cs ≠ [] := by
  cases cs with
  | nil => simp [splitCh]
  | cons x xs =>
    rw [splitCh]
    cases h : splitCh c xs with
    | nil => simp
    | cons y ys => by_cases hx : x = c <;> simp [hx]

theorem splitCh_of_not_mem (c : Char) (cs : List Char) (h : c ∉ cs) : splitCh c cs = [cs] := by
  induction cs with
  | nil => rfl
  | cons x xs ih =>
    have hx : x ≠ c := fun e => h (by simp [e])
    have hxs : c ∉ xs := fun m => h (by simp [m])
    rw [splitCh, ih hxs]
    simp [hx]

theorem splitCh_append (c : Char) (xs ys : List Char) (h : c ∉ xs) :
    splitCh c (xs ++ c :: ys) = xs :: splitCh c ys := by
  induction xs with
  | nil =>
    rw [List.nil_append, splitCh]
    cases hy : splitCh c ys with
    | nil => exact absurd hy (splitCh_ne_nil c ys)
    | cons z zs => simp
  | cons x xs ih =>
    have hx : x ≠ c := fun e => h (by simp [e])
    have hxs : c ∉ xs := fun m => h (by simp [m])
    rw [List.cons_append, splitCh, ih hxs]
    simp [hx]

/-- C10: `parseEnvVars` splits each comma-delimited token on every `=` and
keeps only the first two segments: a token `a=b=rest` (with `a` and `b`
free of `=`) parses to the entry `{name: a, value: b}`, silently dropping
everything after the second `=`. -/
theorem parse_env_vars_drops_after_second_eq (a b r : String)
    (ha : '=' ∉ a.data) (hb : '=' ∉ b.data)
    (ha2 : ',' ∉ a.data) (hb2 : ',' ∉ b.data) (hr : ',' ∉ r.data) :
    parseEnvVars (a ++ "=" ++ b ++ "=" ++ r) =
      Except.ok [JVal.obj [("name", JVal.str a), ("value", JVal.str b)]] := by
  have hdata : (a ++ "=" ++ b ++ "=" ++ r).data =
      a.data ++ '=' :: (b.data ++ '=' :: r.data) := by
    simp [String.data_append]
  have hcomma : ',' ∉ (a ++ "=" ++ b ++ "=" ++ r).data := by
    rw [hdata]
    intro hm
    rcases List.mem_append.mp hm with h | h
    · exact ha2 h
    · rcases List.mem_cons.mp h with h | h
      · exact absurd h (by decide)
      · rcases List.mem_append.mp h with h | h
        · exact hb2 h
        · rcases List.mem_cons.mp h with h | h
          · exact absurd h (by decide)
          · exact hr h
  have htok : parseToken (String.mk (a ++ "=" ++ b ++ "=" ++ r).data) =
      Except.ok (JVal.obj [("name", JVal.str a), ("value", JVal.str b)]) := by
    unfold parseToken
    have hc : (String.mk (a ++ "=" ++ b ++ "=" ++ r).data).data.contains '=' = true := by
      refine List.elem_iff.mpr ?_
      rw [hdata]
      exact List.mem_append.mpr (Or.inr (by simp))
    rw [if_pos hc]
    have hsplit : splitCh '=' (String.mk (a ++ "=" ++ b ++ "=" ++ r).data).data =
        a.data :: b.data :: splitCh '=' r.data := by
      show splitCh '=' (a ++ "=" ++ b ++ "=" ++ r).data = _
      rw [hdata, splitCh_append '=' a.data _ ha, splitCh_append '=' b.data _ hb]
    rw [hsplit]
    rfl
  unfold parseEnvVars
  rw [splitCh_of_not_mem _ _ hcomma, parseTokens, htok]
  rfl

/-- C10 witness: the token `A=1=2` parses to `{name: A, value: 1}`. -/
theorem parse_env_vars_drops_after_second_eq_witness :
    parseEnvVars "A=1=2" =
      Except.ok [JVal.obj [("name", JVal.str "A"), ("value", JVal.str "1")]] :=
  parse_env_vars_drops_after_second_eq "A" "1" "2" (by decide) (by decide) (by decide)
    (by decide) (by decide)

theorem ndecAux_length_le (k : Nat) : ∀ (f n : Nat) (acc : List Char), n < 10 ^ k → 1 ≤ k →
    n < f → (ndecAux f n acc).length ≤ acc.length + k := by
  induction k with
  | zero => intro f n acc _ hk _; omega
  | succ k ih =>
    intro f n acc hn _ hf
    cases f with
    | zero => omega
    | succ f =>
      rw [ndecAux]
      by_cases h10 : n < 10
      · simp only [h10, if_true]
        simp
      · rw [if_neg h10]
        cases k with
        | zero =>
          norm_num at hn
          omega
        | succ k2 =>
          have hdiv : n / 10 < 10 ^ (k2 + 1) := by
            apply (Nat.div_lt_iff_lt_mul (by norm_num)).mpr
            calc n < 10 ^ (k2 + 1 + 1) := hn
            _ = 10 ^ (k2 + 1) * 10 := by ring
          have hstep : n / 10 < n := Nat.div_lt_self (by omega) (by norm_num)
          have := ih f (n / 10) (Char.ofNat ('0'.toNat + n % 10) :: acc) hdiv (by omega)
            (by omega)
          simp only [List.length_cons] at this
          omega

theorem ndec_length_le (n k : Nat) (hn : n < 10 ^ k) (hk : 1 ≤ k) : (ndec n).length ≤ k := by
  have h := ndecAux_length_le k (n + 1) n [] hn hk (by omega)
  simpa [ndec] using h

theorem jsPadStart_length (s : String) (w : Nat) (c : Char) :
    (jsPadStart s w c).length = max w s.length := by
  unfold jsPadStart
  by_cases h : w ≤ s.length
  · rw [if_pos h]
    omega
  · rw [if_neg h, String.length_append]
    simp only [String.length_mk, List.length_replicate]
    omega

/-- C6 counterexample: with a 53-character service name and previous
revision name `svc-999999-abc`, the incremented counter is `1000000`
(7 digits, `padStart(4, '0')` does not truncate), and the generated name
has length 65 > 63: auto-generated names are *not* always within the
63-character ceiling. -/
theorem revision_name_length_exceeds_cx :
    generateRevisionName (some (JVal.str aaa53)) none (some (JVal.str "svc-999999-abc"))
      "0.abc" = Except.ok (JVal.str (aaa53 ++ "-1000000-abc")) ∧
    63 < (aaa53 ++ "-1000000-abc").length := by
  constructor
  · rfl
  · decide

/-- C6 (amended): with no explicit revision name, the counter is the
integer parsed from the second-to-last hyphen-separated segment of
`previousName` plus one (or 1 when `previousName` is absent) and the
generated name is the service name truncated to 53 characters, a hyphen,
the counter left-padded with zeros to at least 4 digits, a hyphen, and the
(here 3) lowercase letters extracted from the random string; the total
length is at most 63 *provided* the incremented counter has at most five
digits (it can exceed 63 for larger counters, see the counterexample). -/
theorem revision_name_autogen_format (sn p rand : String) (n : Nat)
    (hsegs : 2 ≤ (splitCh '-' p.data).length)
    (hseg : ((splitCh '-' p.data).get? ((splitCh '-' p.data).length - 2)).bind
        (fun cs => jsParseNat (String.mk cs)) = some n)
    (hlet : (lettersOf rand).length = 3)
    (hn : n + 1 < 100000) :
    generateRevisionName (some (JVal.str sn)) none (some (JVal.str p)) rand =
      Except.ok (JVal.str (String.mk (sn.data.take 53) ++ "-" ++
        jsPadStart (ndec (n + 1)) 4 '0' ++ "-" ++ lettersOf rand)) ∧
    (String.mk (sn.data.take 53) ++ "-" ++ jsPadStart (ndec (n + 1)) 4 '0' ++ "-" ++
      lettersOf rand).length ≤ 63 ∧
    generateRevisionName (some (JVal.str sn)) none none rand =
      Except.ok (JVal.str (String.mk (sn.data.take 53) ++ "-" ++ jsPadStart (ndec 1) 4 '0' ++
        "-" ++ lettersOf rand)) := by
  have hp0 : p ≠ "" := by
    intro he
    subst he
    simp [splitCh] at hsegs
  have hptruthy : (p == "") = false := beq_eq_false_iff_ne.mpr hp0
  obtain ⟨cs, hcs, hparse⟩ := Option.bind_eq_some.mp hseg
  have hnum : numSuffix (some (JVal.str p)) = Except.ok (ndec (n + 1)) := by
    unfold numSuffix
    simp only [truthyOpt, truthy, hptruthy, Bool.not_false, if_true, if_pos hsegs, hcs,
      hparse]
  refine ⟨?_, ?_, ?_⟩
  · simp [generateRevisionName, truthyOpt, hnum]
  · have h1 : (String.mk (sn.data.take 53)).length ≤ 53 := by
      simp [String.length_mk]
    have h2 : (ndec (n + 1)).length ≤ 5 := by
      apply ndec_length_le (n + 1) 5 _ (by omega)
      norm_num
      omega
    have h3 : (jsPadStart (ndec (n + 1)) 4 '0').length ≤ 5 := by
      rw [jsPadStart_length]
      omega
    rw [String.length_append, String.length_append, String.length_append,
      String.length_append]
    simp only [hlet]
    have hhy : ("-" : String).length = 1 := rfl
    omega
  · have hone : ndec 1 = "1" := rfl
    simp [generateRevisionName, truthyOpt, numSuffix, hone]

/-- C6 witness: previous revision name `svc-0005-abc` and random letters
`def` give `svc-0006-def`. -/
theorem revision_name_autogen_format_witness :
    generateRevisionName (some (JVal.str "svc")) none (some (JVal.str "svc-0005-abc"))
      "0.defgh" = Except.ok (JVal.str (String.mk ("svc".data.take 53) ++ "-" ++
        jsPadStart (ndec 6) 4 '0' ++ "-" ++ lettersOf "0.defgh")) :=
  (revision_name_autogen_format "svc" "svc-0005-abc" "0.defgh" 5 (by decide) (by decide)
    (by decide) (by decide)).1

theorem lookupField_cons (k : String) (v : JVal) (rest : List (String × JVal))
    (key : String) :
    lookupField ((k, v) :: rest) key = if k = key then some v else lookupField rest key := rfl

theorem lookupField_replace_self (d : List (String × JVal)) (k : String) (nv dv : JVal)
    (h : lookupField d k = some dv) : lookupField (replaceField d k nv) k = some nv := by
  induction d with
  | nil => simp [lookupField] at h
  | cons kv rest ih =>
    obtain ⟨k2, v2⟩ := kv
    by_cases hk : k2 = k
    · subst hk
      rw [replaceField, if_pos rfl, lookupField_cons, if_pos rfl]
    · rw [lookupField_cons, if_neg hk] at h
      rw [replaceField, if_neg hk, lookupField_cons, if_neg hk]
      exact ih h

theorem lookupField_replace_ne (d : List (String × JVal)) (k key : String) (nv : JVal)
    (h : key ≠ k) : lookupField (replaceField d k nv) key = lookupField d key := by
  induction d with
  | nil => rfl
  | cons kv rest ih =>
    obtain ⟨k2, v2⟩ := kv
    by_cases hk : k2 = k
    · subst hk
      have hne : ¬k2 = key := fun e => h e.symm
      rw [replaceField, if_pos rfl, lookupField_cons, if_neg hne, lookupField_cons,
        if_neg hne]
    · rw [replaceField, if_neg hk]
      by_cases h2 : k2 = key
      · rw [lookupField_cons, if_pos h2, lookupField_cons, if_pos h2]
      · rw [lookupField_cons, if_neg h2, lookupField_cons, if_neg h2]
        exact ih

theorem lookupField_append (d e : List (String × JVal)) (key : String) :
    lookupField (d ++ e) key =
      match lookupField d key with
      | some v => some v
      | none => lookupField e key := by
  induction d with
  | nil => simp [lookupField]
  | cons kv rest ih =>
    obtain ⟨k2, v2⟩ := kv
    by_cases hk : k2 = key
    · rw [List.cons_append, lookupField_cons, if_pos hk, lookupField_cons, if_pos hk]
    · rw [List.cons_append, lookupField_cons, if_neg hk, lookupField_cons, if_neg hk, ih]

theorem lookupField_eq_none_of_not_mem (s : List (String × JVal)) (key : String)
    (h : key ∉ s.map Prod.fst) : lookupField s key = none := by
  induction s with
  | nil => rfl
  | cons kv rest ih =>
    obtain ⟨k2, v2⟩ := kv
    simp only [List.map_cons, List.mem_cons, not_or] at h
    have hne : ¬k2 = key := fun e => h.1 e.symm
    rw [lookupField_cons, if_neg hne]
    exact ih h.2

theorem lmergeFields_lookup (s : List (String × JVal)) :
    ∀ (d : List (String × JVal)) (key : String), (s.map Prod.fst).Nodup →
    lookupField (lmergeFields d s) key =
      match lookupField s key, lookupField d key with
      | some sv, some dv => some (lmerge dv sv)
      | some sv, none => some sv
      | none, o => o := by
  induction s with
  | nil =>
    intro d key _
    rw [lmergeFields]
    cases hd : lookupField d key <;> simp [lookupField, hd]
  | cons kv rest ih =>
    intro d key hnd
    obtain ⟨k, v⟩ := kv
    simp only [List.map_cons, List.nodup_cons] at hnd
    obtain ⟨hknotin, hndrest⟩ := hnd
    rw [lmergeFields]
    cases hd : lookupField d k with
    | some dv =>
      show lookupField (lmergeFields (replaceField d k (lmerge dv v)) rest) key =
        match lookupField ((k, v) :: rest) key, lookupField d key with
        | some sv, some dv => some (lmerge dv sv)
        | some sv, none => some sv
        | none, o => o
      rw [ih _ key hndrest]
      by_cases hkey : key = k
      · subst hkey
        rw [lookupField_eq_none_of_not_mem rest key hknotin,
          lookupField_replace_self d key (lmerge dv v) dv hd, lookupField_cons,
          if_pos rfl, hd]
      · have hne : ¬k = key := fun e => hkey e.symm
        rw [lookupField_replace_ne d k key (lmerge dv v) hkey, lookupField_cons,
          if_neg hne]
    | none =>
      show lookupField (lmergeFields (d ++ [(k, v)]) rest) key =
        match lookupField ((k, v) :: rest) key, lookupField d key with
        | some sv, some dv => some (lmerge dv sv)
        | some sv, none => some sv
        | none, o => o
      rw [ih _ key hndrest]
      by_cases hkey : key = k
      · subst hkey
        rw [lookupField_eq_none_of_not_mem rest key hknotin, lookupField_append, hd,
          lookupField_cons, if_pos rfl]
        simp [lookupField]
      · have hne : ¬k = key := fun e => hkey e.symm
        cases hdk : lookupField d key with
        | some x =>
          conv_lhs => rw [lookupField_append, hdk]
          conv_rhs => rw [lookupField_cons, if_neg hne]
        | none =>
          conv_lhs => rw [lookupField_append, hdk, lookupField_cons, if_neg hne]
          conv_rhs => rw [lookupField_cons, if_neg hne]
          rfl

theorem lmergeElems_get (d : List JVal) : ∀ (s : List JVal) (i : Nat),
    (lmergeElems d s).get? i =
      match d.get? i, s.get? i with
      | some x, some y => some (lmerge x y)
      | some x, none => some x
      | none, some y => some y
      | none, none => none := by
  induction d with
  | nil =>
    intro s i
    cases s with
    | nil => simp [lmergeElems]
    | cons y ys =>
      simp only [lmergeElems]
      cases i with
      | zero => simp
      | succ j => cases hy : ys[j]? <;> simp [hy]
  | cons x xs ih =>
    intro s i
    cases s with
    | nil =>
      simp only [lmergeElems]
      cases hd : (x :: xs).get? i <;> simp [hd]
    | cons y ys =>
      simp only [lmergeElems]
      cases i with
      | zero => simp
      | succ j => simpa using ih ys j

/-- C3 counterexample: lodash `merge` does not replace a sequence defined
by the current tree wholesale: merging `containers: [new1]` into
`containers: [old1, old2]` keeps the previous array's extra element,
yielding `[new1, old2]`, not `[new1]`. -/
theorem lmerge_array_not_wholesale_cx :
    lmerge (JVal.obj [("containers", JVal.arr [JVal.str "old1", JVal.str "old2"])])
           (JVal.obj [("containers", JVal.arr [JVal.str "new1"])]) =
      JVal.obj [("containers", JVal.arr [JVal.str "new1", JVal.str "old2"])] ∧
    JVal.arr [JVal.str "new1", JVal.str "old2"] ≠ JVal.arr [JVal.str "new1"] :=
  ⟨rfl, by simp⟩

/-- C3 (amended): in the deep merge, every object field present in the
current tree overrides the corresponding previous field (replacing a
scalar outright, merging recursively otherwise), and fields present only
in the previous tree — such as an unrelated `foo` — are preserved; but a
sequence defined by the current tree does NOT replace the previous
sequence wholesale: arrays merge element-wise by index, previous elements
beyond the current length surviving. -/
theorem lmerge_overlay_characterization :
    (∀ (d s : List (String × JVal)) (key : String), (s.map Prod.fst).Nodup →
      jmem (lmerge (JVal.obj d) (JVal.obj s)) (PC.fld key) =
        match lookupField s key, lookupField d key with
        | some sv, some dv => some (lmerge dv sv)
        | some sv, none => some sv
        | none, o => o) ∧
    (∀ (dv : JVal) (t : String), lmerge dv (JVal.str t) = JVal.str t) ∧
    (∀ (d s : List JVal), lmerge (JVal.arr d) (JVal.arr s) = JVal.arr (lmergeElems d s)) ∧
    (∀ (d s : List JVal) (i : Nat),
      (lmergeElems d s).get? i =
        match d.get? i, s.get? i with
        | some x, some y => some (lmerge x y)
        | some x, none => some x
        | none, some y => some y
        | none, none => none) := by
  refine ⟨?_, ?_, ?_, ?_⟩
  · intro d s key h
    show lookupField (lmergeFields d s) key = _
    exact lmergeFields_lookup s d key h
  · intro dv t
    cases dv <;> rfl
  · intro d s
    rfl
  · exact lmergeElems_get

/-- C3 witness: the unrelated previous field `foo` survives a merge whose
current tree only sets `spec`. -/
theorem lmerge_overlay_characterization_witness :
    jmem (lmerge (JVal.obj [("foo", JVal.str "bar")])
      (JVal.obj [("spec", JVal.str "new")])) (PC.fld "foo") = some (JVal.str "bar") := by
  have h := lmerge_overlay_characterization.1 [("foo", JVal.str "bar")]
    [("spec", JVal.str "new")] "foo" (by simp)
  simpa [lookupField] using h

/-- C1 counterexample: `merge` fails on a current descriptor carrying a
64-character explicit revision name, yet the previous descriptor has
already been overwritten by the in-place lodash deep merge before
`generateRevisionName` throws: the error state is the merged tree, which
differs from the original previous descriptor. -/
theorem merge_failure_mutates_prev_cx :
    mergeSvc (Service.mk curLongRevT (some (JVal.str "svc"))) prevSmallT "0.abc" =
      Except.error (SvcError.badRevisionName, mergedLongT) ∧
    mergedLongT ≠ prevSmallT := by
  constructor
  · rfl
  · simp [mergedLongT, prevSmallT, longName64]

/-- C1 (amended): `Service.merge` uses the previous descriptor as the
destination of the lodash deep merge, which mutates it in place before the
revision name is validated; whenever a merge run fails with the
revision-name `ValidationError`, the state the previous descriptor is left
in is exactly the deep-merged tree `lmerge previous current`, not its
original value. -/
theorem merge_error_state_eq_lmerge (svc : Service) (prev : JVal) (rand : String) (p : JVal)
    (h : mergeSvc svc prev rand = Except.error (SvcError.badRevisionName, p)) :
    p = lmerge prev svc.request := by
  simp only [mergeSvc] at h
  cases h1 : jreadBang (lmerge prev svc.request)
      [PC.fld "spec", PC.fld "template", PC.fld "metadata"] with
  | error e =>
    simp only [h1] at h
    obtain rfl := jreadBang_error_eq _ _ _ h1
    simp at h
  | ok metaBase =>
    simp only [h1] at h
    cases h2 : generateRevisionName svc.name (jget svc.request revPath)
        (jget prev revPath) rand with
    | error e =>
      simp only [h2] at h
      simp at h
      exact h.2.symm
    | ok revName =>
      simp only [h2] at h
      cases metaBase with
      | none => simp at h
      | some m =>
        cases h3 : jreadBang (jsetPath (lmerge prev svc.request) revPath revName)
            (contPath ++ [PC.idx 0, PC.fld "env"]) with
        | error e =>
          simp only [h3] at h
          obtain rfl := jreadBang_error_eq _ _ _ h3
          simp at h
        | ok prevEnvVars =>
          simp only [h3] at h
          cases h4 : jreadBang svc.request (contPath ++ [PC.idx 0, PC.fld "env"]) with
          | error e =>
            simp only [h4] at h
            obtain rfl := jreadBang_error_eq _ _ _ h4
            simp at h
          | ok currentEnvVars =>
            simp only [h4] at h
            cases h5 : envListOfCurrent currentEnvVars with
            | error e =>
              simp only [h5] at h
              obtain rfl := envListOfCurrent_error_eq _ _ h5
              simp at h
            | ok env0 =>
              simp only [h5] at h
              cases h6 : prevEnvFold env0
                  (env0.map fun envVar => jmem envVar (PC.fld "name")) prevEnvVars with
              | error e =>
                simp only [h6] at h
                obtain rfl := prevEnvFold_error_eq _ _ _ _ h6
                simp at h
              | ok envF =>
                simp only [h6] at h
                cases h7 : jreadBang (jsetPath (lmerge prev svc.request) revPath revName)
                    (contPath ++ [PC.idx 0]) with
                | error e =>
                  simp only [h7] at h
                  obtain rfl := jreadBang_error_eq _ _ _ h7
                  simp at h
                | ok base2 =>
                  simp only [h7] at h
                  cases base2 with
                  | none => simp at h
                  | some b => simp at h

/-- C1 witness: at the counterexample input the failing merge leaves the
previous descriptor equal to the deep-merged tree. -/
theorem merge_error_state_eq_lmerge_witness :
    mergedLongT = lmerge prevSmallT curLongRevT :=
  merge_error_state_eq_lmerge (Service.mk curLongRevT (some (JVal.str "svc"))) prevSmallT
    "0.abc" mergedLongT (by rfl)

theorem lmerge_envPairT (a b : String × String) :
    lmerge (envPairT a) (envPairT b) = envPairT b := rfl

theorem lmergeElems_envPairT (prev : List (String × String)) :
    ∀ cur : List (String × String),
    lmergeElems (prev.map envPairT) (cur.map envPairT) =
      cur.map envPairT ++ (prev.drop cur.length).map envPairT := by
  induction prev with
  | nil =>
    intro cur
    cases cur with
    | nil => rfl
    | cons c cs => simp [lmergeElems]
  | cons p ps ih =>
    intro cur
    cases cur with
    | nil => simp [lmergeElems]
    | cons c cs =>
      simp only [List.map_cons, lmergeElems, lmerge_envPairT]
      rw [ih cs]
      simp

theorem mergeSvc_canon (cur prev : List (String × String)) (rand : String) :
    mergeSvc (canonSvc cur) (canonPrev prev) rand =
      Except.ok (Service.mk (canonMerged cur prev rand) (some (JVal.str "svc")),
        canonMerged cur prev rand) := rfl

theorem keys_contains_envPairT (cur : List (String × String)) (a : String) :
    ((cur.map envPairT).map (fun envVar => jmem envVar (PC.fld "name"))).contains
        (some (JVal.str a)) = (cur.map Prod.fst).contains a := by
  induction cur with
  | nil => rfl
  | cons c cs ih =>
    have hhead : ((some (JVal.str a) : Option JVal) == some (JVal.str c.1)) = (a == c.1) := rfl
    simp only [List.map_cons, List.contains_cons]
    rw [show jmem (envPairT c) (PC.fld "name") = some (JVal.str c.1) from rfl]
    rw [hhead, ih]

theorem mergedEnvList_eq (cur prev : List (String × String)) :
    mergedEnvList cur prev =
      cur.map envPairT ++
        ((prev.drop cur.length).map envPairT).filter
          (fun y => !(((cur.map envPairT).map
            (fun envVar => jmem envVar (PC.fld "name"))).contains
              (jmem y (PC.fld "name")))) := by
  unfold mergedEnvList
  rw [lmergeElems_envPairT, List.filter_append]
  have hnil : (cur.map envPairT).filter
      (fun y => !(((cur.map envPairT).map
        (fun envVar => jmem envVar (PC.fld "name"))).contains
          (jmem y (PC.fld "name")))) = [] := by
    rw [List.filter_eq_nil_iff]
    intro e he
    obtain ⟨c, hc, rfl⟩ := List.mem_map.mp he
    rw [show jmem (envPairT c) (PC.fld "name") = some (JVal.str c.1) from rfl]
    rw [keys_contains_envPairT]
    have hctn : (cur.map Prod.fst).contains c.1 = true :=
      List.elem_iff.mpr (List.mem_map.mpr ⟨c, hc, rfl⟩)
    simp [hctn]
    exact ⟨c.2, hc⟩
  rw [hnil, List.nil_append]

/-- C4 counterexample: for a pair of first-container descriptors whose
*current* env list contains duplicate names (producible by the builder
from `envVars = "A=1,A=2"`), the merged first container's env names are
NOT pairwise distinct: both `A` entries survive verbatim. -/
theorem merge_env_dup_names_cx :
    ∃ sv rest, mergeSvc (canonSvc [("A", "1"), ("A", "2")]) (canonPrev []) "0.xyz" =
      Except.ok (sv, rest) ∧
      ∃ l, jget sv.request (contPath ++ [PC.idx 0, PC.fld "env"]) = some (JVal.arr l) ∧
        ¬ (l.map (fun e => jmem e (PC.fld "name"))).Nodup := by
  refine ⟨_, _, mergeSvc_canon [("A", "1"), ("A", "2")] [] "0.xyz",
    mergedEnvList [("A", "1"), ("A", "2")] [], rfl, ?_⟩
  have hl : (mergedEnvList [("A", "1"), ("A", "2")] []).map
      (fun e => jmem e (PC.fld "name")) = [some (JVal.str "A"), some (JVal.str "A")] := rfl
  rw [hl]
  simp

/-- C4 (amended): for first-container descriptors (canonical shape) whose
current env names and previous env names are each pairwise distinct, the
merge succeeds and the resulting first container's env names are pairwise
distinct; without those assumptions the invariant fails (see the
counterexample with a duplicated current name). -/
theorem merge_env_names_nodup (cur prev : List (String × String)) (rand : String)
    (hc : (cur.map Prod.fst).Nodup) (hp : (prev.map Prod.fst).Nodup) :
    ∃ sv rest, mergeSvc (canonSvc cur) (canonPrev prev) rand = Except.ok (sv, rest) ∧
      ∃ l, jget sv.request (contPath ++ [PC.idx 0, PC.fld "env"]) = some (JVal.arr l) ∧
        (l.map (fun e => jmem e (PC.fld "name"))).Nodup := by
  refine ⟨_, _, mergeSvc_canon cur prev rand, mergedEnvList cur prev, rfl, ?_⟩
  rw [mergedEnvList_eq, List.map_append]
  have hinj : Function.Injective (fun a : String => some (JVal.str a)) := by
    intro a b hab
    simpa using hab
  have hnames1 : (cur.map envPairT).map (fun e => jmem e (PC.fld "name")) =
      (cur.map Prod.fst).map (fun a => some (JVal.str a)) := by
    rw [List.map_map, List.map_map]
    rfl
  have hnames2 : ((prev.drop cur.length).map envPairT).map
        (fun e => jmem e (PC.fld "name")) =
      ((prev.map Prod.fst).drop cur.length).map (fun a => some (JVal.str a)) := by
    rw [List.map_map, ← List.map_drop, List.map_map]
    rfl
  apply List.Nodup.append
  · rw [hnames1]
    exact hc.map hinj
  · have hsub : List.Sublist
        ((((prev.drop cur.length).map envPairT).filter
          (fun y => !(((cur.map envPairT).map
            (fun envVar => jmem envVar (PC.fld "name"))).contains
              (jmem y (PC.fld "name"))))).map (fun e => jmem e (PC.fld "name")))
        (((prev.drop cur.length).map envPairT).map (fun e => jmem e (PC.fld "name"))) :=
      (List.filter_sublist _).map _
    apply List.Nodup.sublist hsub
    rw [hnames2]
    exact (hp.sublist (List.drop_sublist _ _)).map hinj
  · intro x hx1 hx2
    rw [hnames1] at hx1
    obtain ⟨a, ha, rfl⟩ := List.mem_map.mp hx1
    obtain ⟨y, hy, hyname⟩ := List.mem_map.mp hx2
    have hyf := List.mem_filter.mp hy
    have hpred := hyf.2
    have hcont : ((cur.map envPairT).map
        (fun envVar => jmem envVar (PC.fld "name"))).contains (some (JVal.str a)) = true := by
      rw [keys_contains_envPairT]
      exact List.elem_iff.mpr ha
    rw [hyname, hcont] at hpred
    simp at hpred

/-- C4 witness: distinct current names `A`, `B` and previous name `C` give
a merged env list with pairwise-distinct names. -/
theorem merge_env_names_nodup_witness :
    ∃ sv rest, mergeSvc (canonSvc [("A", "1"), ("B", "2")]) (canonPrev [("C", "3")])
        "0.xyz" = Except.ok (sv, rest) ∧
      ∃ l, jget sv.request (contPath ++ [PC.idx 0, PC.fld "env"]) = some (JVal.arr l) ∧
        (l.map (fun e => jmem e (PC.fld "name"))).Nodup :=
  merge_env_names_nodup [("A", "1"), ("B", "2")] [("C", "3")] "0.xyz" (by simp) (by simp)
